import Mathlib

/-!
Verification of the Drift pattern repository and service layer.

The repository implementations (in-memory backend, unified/sharded file
backend with legacy migration, caching decorator, pattern service) are
modelled as pure Lean functions over explicit state; file I/O is modelled
as explicit filesystem values and the t=now clock as an explicit Nat
parameter.  All backends share the same in-memory working-set semantics
(a list of patterns keyed by id), mirroring the storage-agnostic contract
of IPatternRepository.
-/

namespace Drift

/-- A pattern's lifecycle status: discovered, approved or ignored. -/
inductive PatternStatus where
  | discovered
  | approved
  | ignored
deriving DecidableEq, Repr

/-- Coarse confidence bucket derived from the numeric confidence score. -/
inductive ConfidenceLevel where
  | low
  | medium
  | high
deriving DecidableEq, Repr

/-- How serious a violation of a pattern is. -/
inductive Severity where
  | info
  | warning
  | error
deriving DecidableEq, Repr

/-- Provenance of a detection: AST, semantic, or heuristic. -/
inductive DetectionMethod where
  | ast
  | semantic
  | heuristic
deriving DecidableEq, Repr

/-- A place a pattern was observed: file, line, column, optional end line. -/
structure PatternLocation where
  file : String
  line : Nat
  column : Nat
  endLine : Option Nat
deriving DecidableEq, Repr

/-- Detector descriptor recorded on each pattern for provenance. -/
structure DetectorInfo where
  id : String
  name : String
  version : String
deriving DecidableEq, Repr

/-- Modelled from the spec: the `Pattern` record of `types.ts` (the module is
absent from the sources; this follows spec §3 and the shapes used by the test
suites).  `confidence` is modelled as a rational in [0,1]; timestamps are
modelled as opaque ISO strings; `metadata` as an association list. -/
structure Pattern where
  id : String
  category : String
  subcategory : String
  name : String
  description : String
  status : PatternStatus
  detectorId : String
  detectorName : String
  detectionMethod : DetectionMethod
  detector : DetectorInfo
  confidence : ℚ
  confidenceLevel : ConfidenceLevel
  locations : List PatternLocation
  outliers : List PatternLocation
  severity : Severity
  firstSeen : String
  lastSeen : String
  approvedAt : Option String
  approvedBy : Option String
  tags : List String
  autoFixable : Bool
  metadata : List (String × String)
deriving DecidableEq, Repr

/-- Modelled from the spec: `CONFIDENCE_THRESHOLDS` of the absent `types.ts`;
the unified-repository test pins 0.85 as `high` and the service test counts
0.9 and 0.95 as high-confidence while 0.7 is not. -/
def CONFIDENCE_THRESHOLDS : ℚ × ℚ := (1/2, 4/5)

/-- Modelled from the spec: `computeConfidenceLevel` of the absent `types.ts`:
the fixed threshold function deriving the low/medium/high bucket. -/
def computeConfidenceLevel (c : ℚ) : ConfidenceLevel :=
  if CONFIDENCE_THRESHOLDS.2 ≤ c then .high
  else if CONFIDENCE_THRESHOLDS.1 ≤ c then .medium
  else .low

/-- Typed errors of the pattern system (`errors.ts`). -/
inductive RepoError where
  | notFound (id : String)
  | alreadyExists (id : String)
  | invalidTransition (id : String) (fromStatus : PatternStatus) (toStatus : PatternStatus)
deriving DecidableEq, Repr

/-- The in-memory working set shared by every backend: insertion-ordered
list of patterns, keyed by `id`. -/
abbrev Repo := List Pattern

/-- `get(id)`: the pattern with the given id, or none. -/
def getById (r : Repo) (id : String) : Option Pattern :=
  r.find? (fun p => p.id == id)

/-- Modelled from the spec: `add` of the absent repository implementations —
fails with `PatternAlreadyExistsError` on a duplicate id, otherwise inserts. -/
def add (r : Repo) (p : Pattern) : Except RepoError Repo :=
  match getById r p.id with
  | some _ => .error (.alreadyExists p.id)
  | none => .ok (r ++ [p])

/-- `addMany`: sequential bulk insert, stopping at the first failure. -/
def addMany (r : Repo) (ps : List Pattern) : Except RepoError Repo :=
  ps.foldlM add r

/-- Replace the pattern with the given id (all occurrences; ids are unique). -/
def replaceById (r : Repo) (id : String) (q : Pattern) : Repo :=
  r.map (fun x => if x.id == id then q else x)

/-- Modelled from the spec §9: the `Partial Pattern` update patch as an
explicit optional-field record.  `confidenceLevel` is intentionally absent:
it is derived, never set independently of `confidence`. -/
structure PatternPatch where
  category : Option String := none
  subcategory : Option String := none
  name : Option String := none
  description : Option String := none
  status : Option PatternStatus := none
  confidence : Option ℚ := none
  locations : Option (List PatternLocation) := none
  outliers : Option (List PatternLocation) := none
  severity : Option Severity := none
  lastSeen : Option String := none
  tags : Option (List String) := none
  autoFixable : Option Bool := none
deriving Repr

/-- Merge a patch into a pattern, recomputing `confidenceLevel` whenever the
patch changes `confidence`. -/
def applyPatch (p : Pattern) (u : PatternPatch) : Pattern :=
  let nc := u.confidence.getD p.confidence
  { p with
    category := u.category.getD p.category
    subcategory := u.subcategory.getD p.subcategory
    name := u.name.getD p.name
    description := u.description.getD p.description
    status := u.status.getD p.status
    confidence := nc
    confidenceLevel :=
      if u.confidence.isSome then computeConfidenceLevel nc else p.confidenceLevel
    locations := u.locations.getD p.locations
    outliers := u.outliers.getD p.outliers
    severity := u.severity.getD p.severity
    lastSeen := u.lastSeen.getD p.lastSeen
    tags := u.tags.getD p.tags
    autoFixable := u.autoFixable.getD p.autoFixable }

/-- Modelled from the spec: `update` — fails with `PatternNotFoundError` when
absent, merges partial fields, recomputes `confidenceLevel` when `confidence`
changed, returns the updated pattern. -/
def update (r : Repo) (id : String) (u : PatternPatch) :
    Except RepoError (Repo × Pattern) :=
  match getById r id with
  | none => .error (.notFound id)
  | some p =>
    let q := applyPatch p u
    .ok (replaceById r id q, q)

/-- `delete(id)`: removes the pattern, reporting whether something was there. -/
def deleteById (r : Repo) (id : String) : Repo × Bool :=
  (r.filter (fun p => !(p.id == id)), (getById r id).isSome)

/-- Modelled from the spec §3: `VALID_STATUS_TRANSITIONS` of the absent
`types.ts` — discovered→approved, discovered→ignored and ignored→approved are
the only allowed transitions; same-state transitions are rejected. -/
def validTransition : PatternStatus → PatternStatus → Bool
  | .discovered, .approved => true
  | .discovered, .ignored => true
  | .ignored, .approved => true
  | _, _ => false

/-- The approved version of a pattern: status set, approval stamp recorded. -/
def approvedVersion (p : Pattern) (who : Option String) (now : String) : Pattern :=
  { p with status := .approved, approvedAt := some now, approvedBy := who }

/-- Modelled from the spec: `approve(id, approvedBy?)` — applies the state
machine; invalid transitions raise the typed error carrying
(id, fromStatus, toStatus); a missing id raises not-found. -/
def approve (r : Repo) (id : String) (who : Option String) (now : String) :
    Except RepoError (Repo × Pattern) :=
  match getById r id with
  | none => .error (.notFound id)
  | some p =>
    if validTransition p.status .approved then
      let q := approvedVersion p who now
      .ok (replaceById r id q, q)
    else .error (.invalidTransition id p.status .approved)

/-- The ignored version of a pattern. -/
def ignoredVersion (p : Pattern) : Pattern :=
  { p with status := .ignored }

/-- Modelled from the spec: `ignore(id)` — same state machine, target
`ignored`. -/
def ignore (r : Repo) (id : String) : Except RepoError (Repo × Pattern) :=
  match getById r id with
  | none => .error (.notFound id)
  | some p =>
    if validTransition p.status .ignored then
      let q := ignoredVersion p
      .ok (replaceById r id q, q)
    else .error (.invalidTransition id p.status .ignored)

/-! ## Querying: filter, sort, paginate -/

/-- Does `needle` start `hay` (character lists)? -/
def charsStartWith : List Char → List Char → Bool
  | [], _ => true
  | _ :: _, [] => false
  | a :: as, b :: bs => a == b && charsStartWith as bs

/-- Does `hay` contain `needle` as a contiguous run (character lists)? -/
def charsContain (needle : List Char) : List Char → Bool
  | [] => needle.isEmpty
  | b :: bs => charsStartWith needle (b :: bs) || charsContain needle bs

/-- Case-insensitive substring test over strings. -/
def containsText (hay needle : String) : Bool :=
  charsContain needle.toLower.toList hay.toLower.toList

/-- Conjunctive filter of `PatternFilter` (repository.ts). -/
structure PatternFilter where
  ids : Option (List String) := none
  categories : Option (List String) := none
  statuses : Option (List PatternStatus) := none
  minConfidence : Option ℚ := none
  maxConfidence : Option ℚ := none
  confidenceLevels : Option (List ConfidenceLevel) := none
  severities : Option (List Severity) := none
  files : Option (List String) := none
  hasOutliers : Option Bool := none
  tags : Option (List String) := none
  search : Option String := none
  createdAfter : Option String := none
  createdBefore : Option String := none
deriving Repr

/-- Modelled from the spec §4.1: the conjunctive (AND) filter predicate of
the absent repository implementations. -/
def matchesFilter (f : PatternFilter) (p : Pattern) : Bool :=
  (match f.ids with | none => true | some l => l.contains p.id) &&
  (match f.categories with | none => true | some l => l.contains p.category) &&
  (match f.statuses with | none => true | some l => l.contains p.status) &&
  (match f.minConfidence with | none => true | some m => decide (m ≤ p.confidence)) &&
  (match f.maxConfidence with | none => true | some m => decide (p.confidence ≤ m)) &&
  (match f.confidenceLevels with | none => true | some l => l.contains p.confidenceLevel) &&
  (match f.severities with | none => true | some l => l.contains p.severity) &&
  (match f.files with
   | none => true
   | some l => p.locations.any (fun loc => l.contains loc.file)) &&
  (match f.hasOutliers with | none => true | some b => (!p.outliers.isEmpty) == b) &&
  (match f.tags with | none => true | some l => l.any (fun t => p.tags.contains t)) &&
  (match f.search with
   | none => true
   | some s => containsText p.name s || containsText p.description s) &&
  (match f.createdAfter with
   | none => true
   | some a => decide (a < p.firstSeen) || a == p.firstSeen) &&
  (match f.createdBefore with
   | none => true
   | some b => decide (p.firstSeen < b) || p.firstSeen == b)

/-- Sortable fields of a pattern query. -/
inductive SortField where
  | name
  | confidence
  | severity
  | firstSeen
  | lastSeen
  | locationCount
deriving DecidableEq, Repr

/-- Sort direction. -/
inductive SortDirection where
  | asc
  | desc
deriving DecidableEq, Repr

/-- Sort request. -/
structure PatternSort where
  field : SortField
  direction : SortDirection
deriving Repr

/-- Fixed ordinal order of severities: info < warning < error. -/
def SEVERITY_ORDER : Severity → Nat
  | .info => 0
  | .warning => 1
  | .error => 2

/-- Ascending comparison for each sortable field. -/
def fieldLe : SortField → Pattern → Pattern → Bool
  | .name, p, q => !(decide (q.name < p.name))
  | .confidence, p, q => decide (p.confidence ≤ q.confidence)
  | .severity, p, q => decide (SEVERITY_ORDER p.severity ≤ SEVERITY_ORDER q.severity)
  | .firstSeen, p, q => !(decide (q.firstSeen < p.firstSeen))
  | .lastSeen, p, q => !(decide (q.lastSeen < p.lastSeen))
  | .locationCount, p, q => decide (p.locations.length ≤ q.locations.length)

/-- Apply an optional sort (stable merge sort, direction by flipping). -/
def applySort (s : Option PatternSort) (ps : List Pattern) : List Pattern :=
  match s with
  | none => ps
  | some srt =>
    match srt.direction with
    | .asc => ps.mergeSort (fieldLe srt.field)
    | .desc => ps.mergeSort (fun p q => fieldLe srt.field q p)

/-- Offset/limit pagination request. -/
structure PatternPagination where
  offset : Nat
  limit : Nat
deriving Repr

/-- Complete query options. -/
structure PatternQueryOptions where
  filter : Option PatternFilter := none
  sort : Option PatternSort := none
  pagination : Option PatternPagination := none
deriving Repr

/-- Query result: page of patterns, pre-pagination total, hasMore flag. -/
structure PatternQueryResult where
  patterns : List Pattern
  total : Nat
  hasMore : Bool
deriving Repr

/-- Modelled from the spec §4.1: `query(options)` — filter, then sort, then
paginate; `total` is the pre-pagination count and `hasMore` reports whether
the page stops short of it. -/
def query (r : Repo) (o : PatternQueryOptions) : PatternQueryResult :=
  let filtered := match o.filter with
    | none => r
    | some f => r.filter (matchesFilter f)
  let sorted := applySort o.sort filtered
  let total := sorted.length
  match o.pagination with
  | none => { patterns := sorted, total := total, hasMore := false }
  | some pg =>
    { patterns := (sorted.drop pg.offset).take pg.limit
      total := total
      hasMore := decide (pg.offset + pg.limit < total) }

/-! ## Unified/sharded on-disk format and legacy migration -/

/-- One unified-format category file: version "2.0.0", category, patterns
each carrying its own status. -/
structure UnifiedFile where
  version : String
  category : String
  patterns : List Pattern
deriving Repr

/-- The unified patterns directory: one file per category. -/
abbrev UnifiedDisk := List UnifiedFile

/-- Modelled from the spec §4.4: `saveAll` of the absent unified backend —
writes one file per category holding exactly that category's patterns
(status kept inside each record); categories with no patterns get no file. -/
def saveUnified (ps : Repo) : UnifiedDisk :=
  ((ps.map Pattern.category).dedup).map (fun c =>
    { version := "2.0.0"
      category := c
      patterns := ps.filter (fun p => p.category == c) })

/-- Loading the unified layout: concatenate every category file's patterns. -/
def loadUnified (d : UnifiedDisk) : Repo :=
  d.flatMap (fun f => f.patterns)

/-- One legacy-format file: a status directory and category filename; the
on-disk entries omit `category`/`status` (the loader re-attaches both from
the file's position), so those two fields of each stored entry carry no
information and are overwritten on load. -/
structure LegacyFile where
  status : PatternStatus
  category : String
  entries : List Pattern
deriving Repr

/-- The legacy patterns directory tree. -/
abbrev LegacyDisk := List LegacyFile

/-- Modelled from the spec §4.4: reading every legacy file, reconstructing
full records by re-attaching category from the filename and status from the
directory, preserving all other fields. -/
def loadLegacy (d : LegacyDisk) : Repo :=
  d.flatMap (fun f =>
    f.entries.map (fun p => { p with category := f.category, status := f.status }))

/-- The storage root: unified-format files plus any legacy tree. -/
structure UnifiedFS where
  unified : UnifiedDisk
  legacy : LegacyDisk
deriving Repr

/-- Insert-or-overwrite keyed by id (the safe re-migration primitive). -/
def upsertById (r : Repo) (p : Pattern) : Repo :=
  match getById r p.id with
  | some _ => replaceById r p.id p
  | none => r ++ [p]

/-- Fold `upsertById` over a batch. -/
def upsertAll (r : Repo) (ps : List Pattern) : Repo :=
  ps.foldl upsertById r

/-- Configuration of the unified backend. -/
structure UnifiedConfig where
  autoMigrate : Bool
  keepLegacyFiles : Bool
deriving Repr

/-- Modelled from the spec §4.4: `initialize()` of the absent unified
backend — loads the unified files; when `autoMigrate` is set and a legacy
tree is present, imports every legacy pattern (re-migration is a safe
overwrite keyed by id), writes the per-category unified files, and deletes
the legacy tree unless `keepLegacyFiles` is set. -/
def initializeUnified (cfg : UnifiedConfig) (fs : UnifiedFS) : Repo × UnifiedFS :=
  let base := loadUnified fs.unified
  if cfg.autoMigrate && !fs.legacy.isEmpty then
    let merged := upsertAll base (loadLegacy fs.legacy)
    (merged,
     { unified := saveUnified merged
       legacy := if cfg.keepLegacyFiles then fs.legacy else [] })
  else
    (base, fs)

/-- `saveAll()` on the unified backend: flush the in-memory set to disk. -/
def saveAllUnified (r : Repo) (fs : UnifiedFS) : UnifiedFS :=
  { fs with unified := saveUnified r }

/-! ## Caching decorator

Time is an explicit `Nat` (milliseconds); every read takes the current
instant.  Only the per-id pattern cache is modelled: the per-query-shape
result cache is invalidated wholesale on every write and no claim observes
it through a query, so it adds no observable behavior to the claims below. -/

/-- One pattern-cache entry with its absolute expiry instant. -/
structure CacheEntry where
  id : String
  value : Pattern
  expiresAt : Nat
deriving Repr

/-- The caching decorator's state: the wrapped inner repository, the
pattern cache and the configured TTL. -/
structure CachedRepo where
  inner : Repo
  patternCache : List CacheEntry
  patternTtlMs : Nat
deriving Repr

/-- A cache hit: an entry for `id` that has not expired at `now`. -/
def cacheLookup (cache : List CacheEntry) (id : String) (now : Nat) : Option Pattern :=
  match cache.find? (fun e => e.id == id) with
  | some e => if now < e.expiresAt then some e.value else none
  | none => none

/-- Insert a fresh entry, displacing any previous entry for the id. -/
def cacheInsert (cache : List CacheEntry) (id : String) (p : Pattern) (expiry : Nat) :
    List CacheEntry :=
  { id := id, value := p, expiresAt := expiry } :: cache.filter (fun e => !(e.id == id))

/-- Drop every entry for the id (write-path invalidation). -/
def cacheRemove (cache : List CacheEntry) (id : String) : List CacheEntry :=
  cache.filter (fun e => !(e.id == id))

/-- Modelled from the spec §4.5: `get` through the decorator — serve from a
live cache entry without consulting the inner repository; on miss, read the
inner repository and populate the cache with TTL `patternTtlMs`. -/
def CachedRepo.get (c : CachedRepo) (id : String) (now : Nat) :
    Option Pattern × CachedRepo :=
  match cacheLookup c.patternCache id now with
  | some p => (some p, c)
  | none =>
    match getById c.inner id with
    | some p =>
      (some p,
       { c with patternCache := cacheInsert c.patternCache id p (now + c.patternTtlMs) })
    | none => (none, c)

/-- `add` through the decorator: delegate and invalidate the id's entry. -/
def CachedRepo.add (c : CachedRepo) (p : Pattern) : Except RepoError CachedRepo :=
  (Drift.add c.inner p).map (fun r =>
    { c with inner := r, patternCache := cacheRemove c.patternCache p.id })

/-- `update` through the decorator: delegate and invalidate the id's entry. -/
def CachedRepo.update (c : CachedRepo) (id : String) (u : PatternPatch) :
    Except RepoError (CachedRepo × Pattern) :=
  (Drift.update c.inner id u).map (fun x =>
    ({ c with inner := x.1, patternCache := cacheRemove c.patternCache id }, x.2))

/-- `delete` through the decorator: delegate and invalidate the id's entry. -/
def CachedRepo.delete (c : CachedRepo) (id : String) : CachedRepo × Bool :=
  let x := deleteById c.inner id
  ({ c with inner := x.1, patternCache := cacheRemove c.patternCache id }, x.2)

/-- `approve` through the decorator: delegate and invalidate the id's entry. -/
def CachedRepo.approve (c : CachedRepo) (id : String) (who : Option String) (now : String) :
    Except RepoError (CachedRepo × Pattern) :=
  (Drift.approve c.inner id who now).map (fun x =>
    ({ c with inner := x.1, patternCache := cacheRemove c.patternCache id }, x.2))

/-- `ignore` through the decorator: delegate and invalidate the id's entry. -/
def CachedRepo.ignore (c : CachedRepo) (id : String) :
    Except RepoError (CachedRepo × Pattern) :=
  (Drift.ignore c.inner id).map (fun x =>
    ({ c with inner := x.1, patternCache := cacheRemove c.patternCache id }, x.2))

/-- `clear` through the decorator: empty the inner repository and the cache. -/
def CachedRepo.clear (c : CachedRepo) : CachedRepo :=
  { c with inner := [], patternCache := [] }

/-- `clearCache()`: manual full invalidation. -/
def CachedRepo.clearCache (c : CachedRepo) : CachedRepo :=
  { c with patternCache := [] }

/-! ## Pattern service -/

/-- Aggregate system status served by `getStatus()`. -/
structure PatternSystemStatus where
  totalPatterns : Nat
  discovered : Nat
  approved : Nat
  ignored : Nat
  byCategory : List (String × Nat)
  healthScore : ℚ
deriving DecidableEq, Repr

/-- Count of patterns with a given status. -/
def countStatus (r : Repo) (s : PatternStatus) : Nat :=
  (r.filter (fun p => p.status == s)).length

/-- Per-category pattern counts, in first-appearance order. -/
def categoryCounts (r : Repo) : List (String × Nat) :=
  ((r.map Pattern.category).dedup).map (fun c =>
    (c, (r.filter (fun p => p.category == c)).length))

/-- Sum of the confidence scores. -/
def confidenceSum (r : Repo) : ℚ :=
  (r.map Pattern.confidence).sum

/-- Modelled from the spec §4.6: the derived `healthScore` of the absent
`pattern-service.ts` — 0 to 100, from the approval ratio and the confidence
distribution in equal parts; an empty repository scores 100 (the service
test pins this). -/
def healthScore (r : Repo) : ℚ :=
  if r.length = 0 then 100
  else
    50 * (countStatus r .approved : ℚ) / (r.length : ℚ) +
      50 * confidenceSum r / (r.length : ℚ)

/-- Compute the aggregate status from the repository contents. -/
def computeStatus (r : Repo) : PatternSystemStatus :=
  { totalPatterns := r.length
    discovered := countStatus r .discovered
    approved := countStatus r .approved
    ignored := countStatus r .ignored
    byCategory := categoryCounts r
    healthScore := healthScore r }

/-- The pattern service: a repository plus the service's own status cache
(read-through, held until invalidated by a write through the service). -/
structure Service where
  repo : Repo
  statusCache : Option PatternSystemStatus
deriving Repr

/-- Modelled from the spec §4.6: `getStatus()` — serve the cached status if
present, else compute it from the repository and cache it. -/
def Service.getStatus (s : Service) : PatternSystemStatus × Service :=
  match s.statusCache with
  | some st => (st, s)
  | none =>
    let st := computeStatus s.repo
    (st, { s with statusCache := some st })

/-- `addPattern` through the service: write, then invalidate the status cache. -/
def Service.addPattern (s : Service) (p : Pattern) : Except RepoError Service :=
  (add s.repo p).map (fun r => { repo := r, statusCache := none })

/-- `addPatterns` (batch variant): write, then invalidate the status cache. -/
def Service.addPatterns (s : Service) (ps : List Pattern) : Except RepoError Service :=
  (addMany s.repo ps).map (fun r => { repo := r, statusCache := none })

/-- `updatePattern` through the service: write, then invalidate. -/
def Service.updatePattern (s : Service) (id : String) (u : PatternPatch) :
    Except RepoError (Service × Pattern) :=
  (update s.repo id u).map (fun x => ({ repo := x.1, statusCache := none }, x.2))

/-- `deletePattern` through the service: write, then invalidate. -/
def Service.deletePattern (s : Service) (id : String) : Service × Bool :=
  let x := deleteById s.repo id
  ({ repo := x.1, statusCache := none }, x.2)

/-- `approvePattern` through the service: write, then invalidate. -/
def Service.approvePattern (s : Service) (id : String) (who : Option String)
    (now : String) : Except RepoError (Service × Pattern) :=
  (approve s.repo id who now).map (fun x => ({ repo := x.1, statusCache := none }, x.2))

/-- `ignorePattern` through the service: write, then invalidate. -/
def Service.ignorePattern (s : Service) (id : String) :
    Except RepoError (Service × Pattern) :=
  (ignore s.repo id).map (fun x => ({ repo := x.1, statusCache := none }, x.2))

/-- Bulk approve on the repository, collecting the updated patterns. -/
def approveManyRepo (r : Repo) (ids : List String) (who : Option String) (now : String) :
    Except RepoError (Repo × List Pattern) :=
  ids.foldlM (fun acc id =>
    (approve acc.1 id who now).map (fun x => (x.1, acc.2 ++ [x.2]))) (r, [])

/-- `approveMany` (batch variant): write, then invalidate. -/
def Service.approveMany (s : Service) (ids : List String) (who : Option String)
    (now : String) : Except RepoError (Service × List Pattern) :=
  (approveManyRepo s.repo ids who now).map (fun x =>
    ({ repo := x.1, statusCache := none }, x.2))

/-- Bulk ignore on the repository, collecting the updated patterns. -/
def ignoreManyRepo (r : Repo) (ids : List String) :
    Except RepoError (Repo × List Pattern) :=
  ids.foldlM (fun acc id =>
    (ignore acc.1 id).map (fun x => (x.1, acc.2 ++ [x.2]))) (r, [])

/-- `ignoreMany` (batch variant): write, then invalidate. -/
def Service.ignoreMany (s : Service) (ids : List String) :
    Except RepoError (Service × List Pattern) :=
  (ignoreManyRepo s.repo ids).map (fun x => ({ repo := x.1, statusCache := none }, x.2))

/-- `clear` through the service: empty the repository, invalidate the cache. -/
def Service.clear (_ : Service) : Service :=
  { repo := [], statusCache := none }

/-! ## Concrete fixtures (mirroring the test helpers) -/

/-- The location used by the test fixtures. -/
def sampleLoc : PatternLocation :=
  { file := "src/test.ts", line := 10, column := 1, endLine := none }

/-- A concrete pattern in the shape of the tests' `createTestPattern`. -/
def mkPattern (id : String) (cat : String) (st : PatternStatus) (conf : ℚ) : Pattern :=
  { id := id
    category := cat
    subcategory := "rest"
    name := "Test Pattern"
    description := "A test pattern"
    status := st
    detectorId := "test-detector"
    detectorName := "Test Detector"
    detectionMethod := .ast
    detector := { id := "test-detector", name := "Test Detector", version := "1.0.0" }
    confidence := conf
    confidenceLevel := computeConfidenceLevel conf
    locations := [sampleLoc]
    outliers := []
    severity := .info
    firstSeen := "2025-01-01T00:00:00.000Z"
    lastSeen := "2025-01-01T00:00:00.000Z"
    approvedAt := none
    approvedBy := none
    tags := []
    autoFixable := false
    metadata := [] }

/-- A service over a repository with an empty status cache. -/
def mkService (r : Repo) : Service :=
  { repo := r, statusCache := none }

/-! ## Helper lemmas about `getById` -/

theorem getById_append (r s : Repo) (i : String) :
    getById (r ++ s) i = (getById r i).or (getById s i) :=
  List.find?_append

theorem getById_singleton_self (p : Pattern) : getById [p] p.id = some p := by
  simp [getById]

theorem getById_eq_none_iff (r : Repo) (i : String) :
    getById r i = none ↔ ∀ x ∈ r, x.id ≠ i := by
  simp [getById, List.find?_eq_none]

theorem getById_mem {r : Repo} {i : String} {p : Pattern}
    (h : getById r i = some p) : p ∈ r ∧ p.id = i := by
  refine ⟨List.mem_of_find?_eq_some h, ?_⟩
  have := List.find?_some h
  simpa using this

theorem getById_eq_some_of_mem (r : Repo) (p : Pattern)
    (hmem : p ∈ r) (huniq : ∀ x ∈ r, x.id = p.id → x = p) :
    getById r p.id = some p := by
  induction r with
  | nil => cases hmem
  | cons a l ih =>
    by_cases ha : a.id = p.id
    · have hap : a = p := huniq a (List.mem_cons_self a l) ha
      subst hap
      simp [getById]
    · have hmem' : p ∈ l := by
        rcases List.mem_cons.mp hmem with h | h
        · exact absurd (by rw [h]) ha
        · exact h
      have : getById l p.id = some p :=
        ih hmem' (fun x hx => huniq x (List.mem_cons_of_mem a hx))
      simpa [getById, List.find?_cons_of_neg, ha] using this

theorem getById_replaceById {r : Repo} {i : String} {p : Pattern} (q : Pattern)
    (h : getById r i = some p) (hq : q.id = i) :
    getById (replaceById r i q) i = some q := by
  induction r with
  | nil => simp [getById] at h
  | cons a l ih =>
    by_cases ha : a.id = i
    · simp [getById, replaceById, ha, hq]
    · have h' : getById l i = some p := by
        simpa [getById, List.find?_cons_of_neg, ha] using h
      have hrec := ih h'
      simpa [getById, replaceById, List.find?_cons_of_neg, ha] using hrec

theorem getById_deleteById (r : Repo) (i : String) :
    getById (deleteById r i).1 i = none := by
  rw [getById, List.find?_eq_none]
  intro x hx
  have := (List.mem_filter.mp hx).2
  simpa using this

/-! ## C1: the status-transition state machine -/

/-- C1: for every repository and stored pattern, `approve` succeeds exactly
when the status is discovered or ignored (setting it to approved with the
approval stamp), `ignore` succeeds exactly when the status is discovered;
every other attempted transition — including approved→approved and
ignored→ignored — fails with `InvalidStatusTransitionError` carrying the id,
the current status and the attempted target; a missing id fails with the
not-found error. -/
theorem C1_status_transitions (r : Repo) (id : String) (who : Option String)
    (now : String) :
    (getById r id = none →
      approve r id who now = .error (.notFound id) ∧
      ignore r id = .error (.notFound id))
  ∧ (∀ p, getById r id = some p →
      ((p.status = .discovered ∨ p.status = .ignored) →
        approve r id who now =
          .ok (replaceById r id (approvedVersion p who now), approvedVersion p who now))
    ∧ (p.status = .approved →
        approve r id who now = .error (.invalidTransition id .approved .approved))
    ∧ (p.status = .discovered →
        ignore r id = .ok (replaceById r id (ignoredVersion p), ignoredVersion p))
    ∧ (p.status = .approved →
        ignore r id = .error (.invalidTransition id .approved .ignored))
    ∧ (p.status = .ignored →
        ignore r id = .error (.invalidTransition id .ignored .ignored))) := by
  constructor
  · intro h
    constructor <;> simp [approve, ignore, h]
  · intro p hp
    refine ⟨?_, ?_, ?_, ?_, ?_⟩
    · rintro (hs | hs) <;> simp [approve, hp, hs, validTransition]
    · intro hs; simp [approve, hp, hs, validTransition]
    · intro hs; simp [ignore, hp, hs, validTransition]
    · intro hs; simp [ignore, hp, hs, validTransition]
    · intro hs; simp [ignore, hp, hs, validTransition]

/-- Witness for C1 at a concrete repository: approving an already-approved
pattern fails with the typed transition error. -/
theorem C1_status_transitions_witness :
    getById [mkPattern "p1" "api" .approved (9/10)] "p1" =
      some (mkPattern "p1" "api" .approved (9/10))
  ∧ approve [mkPattern "p1" "api" .approved (9/10)] "p1" (some "test-user") "t" =
      .error (.invalidTransition "p1" .approved .approved) := by
  have hg : getById [mkPattern "p1" "api" .approved (9/10)] "p1" =
      some (mkPattern "p1" "api" .approved (9/10)) := rfl
  refine ⟨hg, ?_⟩
  exact (((C1_status_transitions [mkPattern "p1" "api" .approved (9/10)] "p1"
    (some "test-user") "t").2 (mkPattern "p1" "api" .approved (9/10)) hg).2.1) rfl

/-! ## C2: duplicate `add` fails and leaves the first pattern untouched -/

/-- C2: after `add p` succeeds, adding any pattern with the same id fails
with `PatternAlreadyExistsError`, and `get` afterwards still returns the
first-added pattern unmodified in all fields. -/
theorem C2_duplicate_add (r r' : Repo) (p q : Pattern)
    (hid : q.id = p.id) (hadd : add r p = .ok r') :
    add r' q = .error (.alreadyExists q.id) ∧ getById r' p.id = some p := by
  unfold add at hadd
  cases hg : getById r p.id with
  | some x => rw [hg] at hadd; exact absurd hadd (by simp)
  | none =>
    rw [hg] at hadd
    have hr' : r' = r ++ [p] := by
      cases hadd; rfl
    subst hr'
    have hgp : getById (r ++ [p]) p.id = some p := by
      rw [getById_append, hg, Option.none_or]
      exact getById_singleton_self p
    refine ⟨?_, hgp⟩
    unfold add
    rw [hid, hgp]

/-- Witness for C2: a concrete duplicate add on a one-pattern repository. -/
theorem C2_duplicate_add_witness :
    add [mkPattern "p1" "api" .discovered (9/10)] (mkPattern "p1" "security" .approved (1/2)) =
      .error (.alreadyExists "p1")
  ∧ getById [mkPattern "p1" "api" .discovered (9/10)] "p1" =
      some (mkPattern "p1" "api" .discovered (9/10)) := by
  have h := C2_duplicate_add [] [mkPattern "p1" "api" .discovered (9/10)]
    (mkPattern "p1" "api" .discovered (9/10)) (mkPattern "p1" "security" .approved (1/2))
    rfl rfl
  exact ⟨h.1, h.2⟩

/-! ## C7: confidence-level derivation on `update` -/

/-- C7: on a successful `update`, the stored pattern reflects a patched
confidence exactly and its `confidenceLevel` equals the fixed threshold
function applied to it; moreover an update never breaks the
confidence/confidenceLevel consistency invariant of the repository. -/
theorem C7_confidence_level (r : Repo) (id : String) (u : PatternPatch)
    (r' : Repo) (q : Pattern) (h : update r id u = .ok (r', q)) :
    (∀ x, u.confidence = some x →
      q.confidence = x ∧ q.confidenceLevel = computeConfidenceLevel x)
  ∧ getById r' id = some q
  ∧ ((∀ p ∈ r, p.confidenceLevel = computeConfidenceLevel p.confidence) →
      ∀ p' ∈ r', p'.confidenceLevel = computeConfidenceLevel p'.confidence) := by
  unfold update at h
  cases hg : getById r id with
  | none => rw [hg] at h; exact absurd h (by simp)
  | some p =>
    rw [hg] at h
    simp only [Except.ok.injEq, Prod.mk.injEq] at h
    obtain ⟨hr', hq⟩ := h
    subst hr'
    subst hq
    obtain ⟨hpmem, hpid⟩ := getById_mem hg
    refine ⟨?_, ?_, ?_⟩
    · intro x hx
      constructor <;> simp [applyPatch, hx]
    · exact getById_replaceById (applyPatch p u) hg hpid
    · intro hall p' hp'
      unfold replaceById at hp'
      obtain ⟨a, ha, rfl⟩ := List.mem_map.mp hp'
      by_cases hai : a.id = id
      · simp only [hai, beq_self_eq_true, if_pos]
        cases hx : u.confidence with
        | some x => simp [applyPatch, hx]
        | none => simpa [applyPatch, hx] using hall p hpmem ▸ (by simp [applyPatch, hx])
      · simpa [hai] using hall a ha

/-- Witness for C7: updating a concrete pattern's confidence to 0.3 yields a
`low` confidence level in the stored pattern. -/
theorem C7_confidence_level_witness :
    update [mkPattern "p1" "api" .discovered (9/10)] "p1" { confidence := some (3/10) } =
      .ok (replaceById [mkPattern "p1" "api" .discovered (9/10)] "p1"
             (applyPatch (mkPattern "p1" "api" .discovered (9/10)) { confidence := some (3/10) }),
           applyPatch (mkPattern "p1" "api" .discovered (9/10)) { confidence := some (3/10) })
  ∧ (applyPatch (mkPattern "p1" "api" .discovered (9/10)) { confidence := some (3/10) }).confidence = 3/10
  ∧ (applyPatch (mkPattern "p1" "api" .discovered (9/10)) { confidence := some (3/10) }).confidenceLevel
      = computeConfidenceLevel (3/10) := by
  have h : update [mkPattern "p1" "api" .discovered (9/10)] "p1" { confidence := some (3/10) } =
      .ok (replaceById [mkPattern "p1" "api" .discovered (9/10)] "p1"
             (applyPatch (mkPattern "p1" "api" .discovered (9/10)) { confidence := some (3/10) }),
           applyPatch (mkPattern "p1" "api" .discovered (9/10)) { confidence := some (3/10) }) := rfl
  have hc := (C7_confidence_level _ _ _ _ _ h).1 (3/10) rfl
  exact ⟨h, hc.1, hc.2⟩

/-! ## C8: pagination semantics of `query` -/

theorem length_applySort (s : Option PatternSort) (ps : List Pattern) :
    (applySort s ps).length = ps.length := by
  rcases s with _ | ⟨fld, dir⟩
  · rfl
  · cases dir <;> simp [applySort, List.length_mergeSort]

/-- C8: with pagination `{offset, limit}` over a filter matching `n`
patterns, the page holds `min limit (n - offset)` patterns, `total` is the
pre-pagination count `n`, and `hasMore` holds exactly when
`offset + limit < n`. -/
theorem C8_pagination (r : Repo) (f : Option PatternFilter) (srt : Option PatternSort)
    (off lim : Nat) :
    let filtered := match f with
      | none => r
      | some f0 => r.filter (matchesFilter f0)
    let res := query r { filter := f, sort := srt,
                         pagination := some { offset := off, limit := lim } }
    res.patterns.length = min lim (filtered.length - off)
  ∧ res.total = filtered.length
  ∧ (res.hasMore = true ↔ off + lim < filtered.length) := by
  intro filtered res
  have hlen : (applySort srt filtered).length = filtered.length := length_applySort srt filtered
  refine ⟨?_, ?_, ?_⟩
  · show ((applySort srt filtered).drop off |>.take lim).length = _
    simp [List.length_take, List.length_drop, hlen]
  · show (applySort srt filtered).length = filtered.length
    exact hlen
  · show decide (off + lim < (applySort srt filtered).length) = true ↔ _
    rw [hlen]
    exact decide_eq_true_iff

/-! ## C10: status of a service over an empty repository -/

/-- C10: over an empty repository, `getStatus()` reports zero total
patterns, zero for each status, and a health score of exactly 100. -/
theorem C10_empty_status :
    (Service.getStatus { repo := [], statusCache := none }).1.totalPatterns = 0
  ∧ (Service.getStatus { repo := [], statusCache := none }).1.discovered = 0
  ∧ (Service.getStatus { repo := [], statusCache := none }).1.approved = 0
  ∧ (Service.getStatus { repo := [], statusCache := none }).1.ignored = 0
  ∧ (Service.getStatus { repo := [], statusCache := none }).1.healthScore = 100 := by
  refine ⟨rfl, rfl, rfl, rfl, ?_⟩
  simp [Service.getStatus, computeStatus, healthScore]

/-! ## C6: the service's status cache -/

theorem deleteById_length {r : Repo} {id : String} {q : Pattern}
    (hnodup : (r.map Pattern.id).Nodup) (hq : getById r id = some q) :
    (deleteById r id).1.length = r.length - 1 := by
  induction r with
  | nil => simp [getById] at hq
  | cons a l ih =>
    rw [List.map_cons, List.nodup_cons] at hnodup
    obtain ⟨hhead, htail⟩ := hnodup
    by_cases ha : a.id = id
    · have hkeep : l.filter (fun p => !(p.id == id)) = l := by
        apply List.filter_eq_self.mpr
        intro x hx
        have hxa : x.id ≠ a.id := fun hxe =>
          hhead (hxe ▸ List.mem_map_of_mem Pattern.id hx)
        simp [ha ▸ hxa]
      simp [deleteById, List.filter_cons, ha, hkeep]
    · have hq' : getById l id = some q := by
        simpa [getById, List.find?_cons_of_neg, ha] using hq
      have hrec := ih htail hq'
      have hqlen : 1 ≤ l.length :=
        List.length_pos.mpr (by rintro rfl; simp [getById] at hq')
      have hcons : (deleteById (a :: l) id).1 = a :: (deleteById l id).1 := by
        simp [deleteById, List.filter_cons, ha]
      rw [hcons, List.length_cons, hrec, List.length_cons]
      omega

/-- C6: every mutating service method invalidates the service's status
cache, so `getStatus()` immediately reflects the mutation — in particular
`totalPatterns` grows by one right after `addPattern` and shrinks by one
right after `deletePattern` — while a mutation applied directly to the
underlying repository (bypassing the service) may be answered from the
stale cached status. -/
theorem C6_status_cache (s : Service) :
    (∀ p s', s.addPattern p = .ok s' →
      s'.statusCache = none ∧ (s'.getStatus).1.totalPatterns = s.repo.length + 1)
  ∧ (∀ id q, (s.repo.map Pattern.id).Nodup → getById s.repo id = some q →
      (s.deletePattern id).2 = true ∧
      (((s.deletePattern id).1).getStatus).1.totalPatterns = s.repo.length - 1)
  ∧ (∀ ps s', s.addPatterns ps = .ok s' → s'.statusCache = none)
  ∧ (∀ id u x, s.updatePattern id u = .ok x → x.1.statusCache = none)
  ∧ (∀ id who now x, s.approvePattern id who now = .ok x → x.1.statusCache = none)
  ∧ (∀ id x, s.ignorePattern id = .ok x → x.1.statusCache = none)
  ∧ (∀ ids who now x, s.approveMany ids who now = .ok x → x.1.statusCache = none)
  ∧ (∀ ids x, s.ignoreMany ids = .ok x → x.1.statusCache = none)
  ∧ (s.clear.statusCache = none ∧ (s.clear.getStatus).1.totalPatterns = 0)
  ∧ (∀ st r', s.statusCache = some st →
      (Service.getStatus { s with repo := r' }).1 = st) := by
  refine ⟨?_, ?_, ?_, ?_, ?_, ?_, ?_, ?_, ⟨rfl, rfl⟩, ?_⟩
  · intro p s' h
    unfold Service.addPattern at h
    cases hg : add s.repo p with
    | error e => rw [hg] at h; simp [Except.map] at h
    | ok r2 =>
      rw [hg] at h
      injection h with h
      subst h
      refine ⟨rfl, ?_⟩
      unfold add at hg
      cases hgb : getById s.repo p.id with
      | some x => rw [hgb] at hg; exact absurd hg (by simp)
      | none =>
        rw [hgb] at hg
        have : r2 = s.repo ++ [p] := by cases hg; rfl
        subst this
        simp [Service.getStatus, computeStatus]
  · intro id q hnodup hq
    refine ⟨?_, ?_⟩
    · unfold Service.deletePattern deleteById
      simp [hq]
    · show (Service.getStatus { repo := (deleteById s.repo id).1, statusCache := none }).1.totalPatterns = _
      have := deleteById_length hnodup hq
      simpa [Service.getStatus, computeStatus] using this
  · intro ps s' h
    unfold Service.addPatterns at h
    cases hg : addMany s.repo ps with
    | error e => rw [hg] at h; simp [Except.map] at h
    | ok r2 => rw [hg] at h; injection h with h; subst h; rfl
  · intro id u x h
    unfold Service.updatePattern at h
    cases hg : update s.repo id u with
    | error e => rw [hg] at h; simp [Except.map] at h
    | ok y => rw [hg] at h; injection h with h; subst h; rfl
  · intro id who now x h
    unfold Service.approvePattern at h
    cases hg : approve s.repo id who now with
    | error e => rw [hg] at h; simp [Except.map] at h
    | ok y => rw [hg] at h; injection h with h; subst h; rfl
  · intro id x h
    unfold Service.ignorePattern at h
    cases hg : ignore s.repo id with
    | error e => rw [hg] at h; simp [Except.map] at h
    | ok y => rw [hg] at h; injection h with h; subst h; rfl
  · intro ids who now x h
    unfold Service.approveMany at h
    cases hg : approveManyRepo s.repo ids who now with
    | error e => rw [hg] at h; simp [Except.map] at h
    | ok y => rw [hg] at h; injection h with h; subst h; rfl
  · intro ids x h
    unfold Service.ignoreMany at h
    cases hg : ignoreManyRepo s.repo ids with
    | error e => rw [hg] at h; simp [Except.map] at h
    | ok y => rw [hg] at h; injection h with h; subst h; rfl
  · intro st r' h
    simp [Service.getStatus, h]

/-- Witness for C6: adding to an empty service bumps `totalPatterns` to 1
with no manual cache clearing; deleting it brings it back to 0. -/
theorem C6_status_cache_witness :
    ({ repo := [], statusCache := none } : Service).addPattern
        (mkPattern "p1" "api" .discovered (9/10)) =
      .ok { repo := [mkPattern "p1" "api" .discovered (9/10)], statusCache := none }
  ∧ (Service.getStatus
      { repo := [mkPattern "p1" "api" .discovered (9/10)], statusCache := none }).1.totalPatterns = 1
  ∧ (Service.deletePattern
      { repo := [mkPattern "p1" "api" .discovered (9/10)], statusCache := none } "p1").2 = true := by
  have h : ({ repo := [], statusCache := none } : Service).addPattern
      (mkPattern "p1" "api" .discovered (9/10)) =
      .ok { repo := [mkPattern "p1" "api" .discovered (9/10)], statusCache := none } := rfl
  have h1 := ((C6_status_cache { repo := [], statusCache := none }).1
    (mkPattern "p1" "api" .discovered (9/10))
    { repo := [mkPattern "p1" "api" .discovered (9/10)], statusCache := none } h).2
  have h2 := ((C6_status_cache
      { repo := [mkPattern "p1" "api" .discovered (9/10)], statusCache := none }).2.1
    "p1" (mkPattern "p1" "api" .discovered (9/10)) (by simp [mkPattern]) rfl).1
  exact ⟨h, h1, h2⟩

/-! ## C9: health score bounds and monotonicity -/

theorem countStatus_le_length (r : Repo) (st : PatternStatus) :
    countStatus r st ≤ r.length :=
  List.length_filter_le _ r

theorem countStatus_mono {r r' : Repo}
    (hrel : List.Forall₂ (fun p q =>
      p.confidence ≤ q.confidence ∧ (p.status = .approved → q.status = .approved)) r r') :
    countStatus r .approved ≤ countStatus r' .approved := by
  induction hrel with
  | nil => exact le_refl _
  | @cons a b l l' hpq htail ih =>
    unfold countStatus at ih ⊢
    rw [List.filter_cons, List.filter_cons]
    by_cases ha : a.status = PatternStatus.approved
    · have hb := hpq.2 ha
      simp only [ha, hb, beq_self_eq_true, if_pos, List.length_cons]
      omega
    · by_cases hb : b.status = PatternStatus.approved
      · simp only [ha, hb, beq_self_eq_true, beq_iff_eq, if_pos, if_neg,
          not_false_iff, List.length_cons]
        omega
      · simp only [beq_iff_eq, ha, hb, if_neg, not_false_iff]
        exact ih

theorem confidenceSum_mono {r r' : Repo}
    (hrel : List.Forall₂ (fun p q =>
      p.confidence ≤ q.confidence ∧ (p.status = .approved → q.status = .approved)) r r') :
    confidenceSum r ≤ confidenceSum r' := by
  induction hrel with
  | nil => exact le_refl _
  | cons hpq htail ih =>
    unfold confidenceSum at ih ⊢
    simp only [List.map_cons, List.sum_cons]
    exact add_le_add hpq.1 ih

theorem confidenceSum_nonneg (r : Repo) (hconf : ∀ p ∈ r, 0 ≤ p.confidence) :
    0 ≤ confidenceSum r := by
  apply List.sum_nonneg
  intro x hx
  obtain ⟨p, hp, rfl⟩ := List.mem_map.mp hx
  exact hconf p hp

theorem confidenceSum_le_length (r : Repo) (hconf : ∀ p ∈ r, p.confidence ≤ 1) :
    confidenceSum r ≤ (r.length : ℚ) := by
  have h := List.sum_le_card_nsmul (r.map Pattern.confidence) 1 ?_
  · simpa [confidenceSum, nsmul_eq_mul] using h
  · intro x hx
    obtain ⟨p, hp, rfl⟩ := List.mem_map.mp hx
    exact hconf p hp

theorem healthScore_bounds (r : Repo)
    (hconf : ∀ p ∈ r, 0 ≤ p.confidence ∧ p.confidence ≤ 1) :
    0 ≤ healthScore r ∧ healthScore r ≤ 100 := by
  unfold healthScore
  by_cases h : r.length = 0
  · rw [if_pos h]; norm_num
  · rw [if_neg h]
    have hn : (0:ℚ) < (r.length : ℚ) := by exact_mod_cast Nat.pos_of_ne_zero h
    have hc0 : 0 ≤ confidenceSum r := confidenceSum_nonneg r (fun p hp => (hconf p hp).1)
    have hc1 : confidenceSum r ≤ (r.length : ℚ) :=
      confidenceSum_le_length r (fun p hp => (hconf p hp).2)
    have ha : (countStatus r .approved : ℚ) ≤ (r.length : ℚ) := by
      exact_mod_cast countStatus_le_length r .approved
    constructor
    · have t1 : (0:ℚ) ≤ 50 * (countStatus r .approved : ℚ) / (r.length : ℚ) := by positivity
      have t2 : (0:ℚ) ≤ 50 * confidenceSum r / (r.length : ℚ) :=
        div_nonneg (mul_nonneg (by norm_num) hc0) hn.le
      exact add_nonneg t1 t2
    · have t1 : 50 * (countStatus r .approved : ℚ) / (r.length : ℚ) ≤ 50 := by
        rw [mul_div_assoc]
        have hd : (countStatus r .approved : ℚ) / (r.length : ℚ) ≤ 1 := (div_le_one hn).mpr ha
        calc 50 * ((countStatus r .approved : ℚ) / (r.length : ℚ)) ≤ 50 * 1 :=
              mul_le_mul_of_nonneg_left hd (by norm_num)
          _ = 50 := by norm_num
      have t2 : 50 * confidenceSum r / (r.length : ℚ) ≤ 50 := by
        rw [mul_div_assoc]
        have hd : confidenceSum r / (r.length : ℚ) ≤ 1 := (div_le_one hn).mpr hc1
        calc 50 * (confidenceSum r / (r.length : ℚ)) ≤ 50 * 1 :=
              mul_le_mul_of_nonneg_left hd (by norm_num)
          _ = 50 := by norm_num
      calc 50 * (countStatus r .approved : ℚ) / (r.length : ℚ) +
            50 * confidenceSum r / (r.length : ℚ) ≤ 50 + 50 := add_le_add t1 t2
        _ = 100 := by norm_num

theorem healthScore_mono {r r' : Repo}
    (hrel : List.Forall₂ (fun p q =>
      p.confidence ≤ q.confidence ∧ (p.status = .approved → q.status = .approved)) r r') :
    healthScore r ≤ healthScore r' := by
  have hlen := hrel.length_eq
  unfold healthScore
  by_cases h : r.length = 0
  · rw [if_pos h, if_pos (hlen ▸ h)]
  · rw [if_neg h, if_neg (by omega : ¬r'.length = 0), ← hlen]
    have hn : (0:ℚ) ≤ (r.length : ℚ) := by positivity
    have h1 : (countStatus r .approved : ℚ) ≤ (countStatus r' .approved : ℚ) := by
      exact_mod_cast countStatus_mono hrel
    have h2 := confidenceSum_mono hrel
    apply add_le_add
    · exact div_le_div_of_nonneg_right
        (mul_le_mul_of_nonneg_left h1 (by norm_num)) hn
    · exact div_le_div_of_nonneg_right
        (mul_le_mul_of_nonneg_left h2 (by norm_num)) hn

/-- C9: `getStatus()`'s health score always lies in [0, 100] (confidences
being in [0, 1]), and it is monotone: a state that is pointwise at least as
approved and at least as confident scores at least as high — approving a
pattern or raising a confidence never decreases the score. -/
theorem C9_health_monotone (r r' : Repo)
    (hconf : ∀ p ∈ r, 0 ≤ p.confidence ∧ p.confidence ≤ 1)
    (hrel : List.Forall₂ (fun p q =>
      p.confidence ≤ q.confidence ∧ (p.status = .approved → q.status = .approved)) r r') :
    0 ≤ (Service.getStatus (mkService r)).1.healthScore
  ∧ (Service.getStatus (mkService r)).1.healthScore ≤ 100
  ∧ (Service.getStatus (mkService r)).1.healthScore ≤
      (Service.getStatus (mkService r')).1.healthScore := by
  have hb := healthScore_bounds r hconf
  exact ⟨hb.1, hb.2, healthScore_mono hrel⟩

/-- Witness for C9: approving the single pattern and raising its confidence
does not lower the health score, which sits in [0, 100]. -/
theorem C9_health_monotone_witness :
    0 ≤ (Service.getStatus (mkService [mkPattern "p1" "api" .discovered (1/2)])).1.healthScore
  ∧ (Service.getStatus (mkService [mkPattern "p1" "api" .discovered (1/2)])).1.healthScore ≤ 100
  ∧ (Service.getStatus (mkService [mkPattern "p1" "api" .discovered (1/2)])).1.healthScore ≤
      (Service.getStatus (mkService [mkPattern "p1" "api" .approved (7/10)])).1.healthScore := by
  refine C9_health_monotone [mkPattern "p1" "api" .discovered (1/2)]
    [mkPattern "p1" "api" .approved (7/10)] ?_ ?_
  · intro p hp
    rw [List.mem_singleton] at hp
    subst hp
    constructor <;> norm_num [mkPattern]
  · refine List.Forall₂.cons ⟨?_, fun _ => rfl⟩ List.Forall₂.nil
    norm_num [mkPattern]

/-! ## C5: caching decorator semantics -/

theorem cacheLookup_remove (cache : List CacheEntry) (id : String) (t : Nat) :
    cacheLookup (cacheRemove cache id) id t = none := by
  unfold cacheLookup cacheRemove
  have h : (cache.filter fun e => !(e.id == id)).find? (fun e => e.id == id) = none := by
    rw [List.find?_eq_none]
    intro e he
    have := (List.mem_filter.mp he).2
    simpa using this
  rw [h]

theorem get_of_cacheLookup_some {c : CachedRepo} {id : String} {t : Nat} {p : Pattern}
    (h : cacheLookup c.patternCache id t = some p) :
    (CachedRepo.get c id t).1 = some p := by
  unfold CachedRepo.get
  rw [h]

theorem get_of_cacheLookup_none {c : CachedRepo} {id : String} {t : Nat}
    (h : cacheLookup c.patternCache id t = none) :
    (CachedRepo.get c id t).1 = getById c.inner id := by
  unfold CachedRepo.get
  rw [h]
  cases getById c.inner id <;> rfl

theorem cacheLookup_insert (cache : List CacheEntry) (id : String) (p : Pattern)
    (expiry t : Nat) :
    cacheLookup (cacheInsert cache id p expiry) id t =
      if t < expiry then some p else none := by
  unfold cacheLookup cacheInsert
  rw [List.find?_cons_of_pos _ (by simp)]

/-- C5: after a `get` through the decorator has populated the cache, a
direct mutation of the inner repository is invisible through the decorator
until the entry's TTL expires or `clearCache()` is called; every write
through the decorator invalidates the affected entry before returning, so
an immediately following `get` returns the written state. -/
theorem C5_cache_semantics (c : CachedRepo) (id : String) (p : Pattern)
    (now later t : Nat) (r' : Repo) :
    (cacheLookup c.patternCache id now = some p →
      (CachedRepo.get { c with inner := r' } id now).1 = some p)
  ∧ (cacheLookup c.patternCache id now = none → getById c.inner id = some p →
      later < now + c.patternTtlMs →
      (CachedRepo.get { (CachedRepo.get c id now).2 with inner := r' } id later).1 = some p)
  ∧ (cacheLookup c.patternCache id now = none → getById c.inner id = some p →
      now + c.patternTtlMs ≤ later →
      (CachedRepo.get { (CachedRepo.get c id now).2 with inner := r' } id later).1 =
        getById r' id)
  ∧ ((CachedRepo.get (CachedRepo.clearCache { c with inner := r' }) id t).1 =
      getById r' id)
  ∧ (∀ q c', CachedRepo.add c q = .ok c' → (CachedRepo.get c' q.id t).1 = some q)
  ∧ (∀ u x, CachedRepo.update c id u = .ok x → (CachedRepo.get x.1 id t).1 = some x.2)
  ∧ ((CachedRepo.get (CachedRepo.delete c id).1 id t).1 = none)
  ∧ (∀ who ts x, CachedRepo.approve c id who ts = .ok x →
      (CachedRepo.get x.1 id t).1 = some x.2)
  ∧ (∀ x, CachedRepo.ignore c id = .ok x → (CachedRepo.get x.1 id t).1 = some x.2)
  ∧ ((CachedRepo.get (CachedRepo.clear c) id t).1 = none) := by
  refine ⟨?_, ?_, ?_, ?_, ?_, ?_, ?_, ?_, ?_, ?_⟩
  · intro h
    exact get_of_cacheLookup_some (p := p) h
  · intro hmiss hg hlt
    have hpop : (CachedRepo.get c id now).2.patternCache =
        cacheInsert c.patternCache id p (now + c.patternTtlMs) := by
      unfold CachedRepo.get
      rw [hmiss, hg]
    apply get_of_cacheLookup_some
    show cacheLookup (CachedRepo.get c id now).2.patternCache id later = some p
    rw [hpop, cacheLookup_insert, if_pos hlt]
  · intro hmiss hg hle
    have hpop : (CachedRepo.get c id now).2.patternCache =
        cacheInsert c.patternCache id p (now + c.patternTtlMs) := by
      unfold CachedRepo.get
      rw [hmiss, hg]
    apply get_of_cacheLookup_none
    show cacheLookup (CachedRepo.get c id now).2.patternCache id later = none
    rw [hpop, cacheLookup_insert, if_neg (by omega)]
  · exact get_of_cacheLookup_none rfl
  · intro q c' h
    unfold CachedRepo.add at h
    cases hg : Drift.add c.inner q with
    | error e => rw [hg] at h; simp [Except.map] at h
    | ok r2 =>
      rw [hg] at h
      injection h with h
      subst h
      have hlk : cacheLookup (cacheRemove c.patternCache q.id) q.id t = none :=
        cacheLookup_remove c.patternCache q.id t
      rw [get_of_cacheLookup_none hlk]
      unfold add at hg
      cases hgb : getById c.inner q.id with
      | some x => rw [hgb] at hg; exact absurd hg (by simp)
      | none =>
        rw [hgb] at hg
        have : r2 = c.inner ++ [q] := by cases hg; rfl
        subst this
        show getById (c.inner ++ [q]) q.id = some q
        rw [getById_append, hgb, Option.none_or]
        exact getById_singleton_self q
  · intro u x h
    unfold CachedRepo.update at h
    cases hg : Drift.update c.inner id u with
    | error e => rw [hg] at h; simp [Except.map] at h
    | ok y =>
      rw [hg] at h
      injection h with h
      subst h
      rw [get_of_cacheLookup_none (cacheLookup_remove c.patternCache id t)]
      unfold update at hg
      cases hgb : getById c.inner id with
      | none => rw [hgb] at hg; exact absurd hg (by simp)
      | some p0 =>
        rw [hgb] at hg
        simp only [Except.ok.injEq] at hg
        subst hg
        exact getById_replaceById (applyPatch p0 u) hgb (getById_mem hgb).2
  · rw [get_of_cacheLookup_none (cacheLookup_remove c.patternCache id t)]
    exact getById_deleteById c.inner id
  · intro who ts x h
    unfold CachedRepo.approve at h
    cases hg : Drift.approve c.inner id who ts with
    | error e => rw [hg] at h; simp [Except.map] at h
    | ok y =>
      rw [hg] at h
      injection h with h
      subst h
      rw [get_of_cacheLookup_none (cacheLookup_remove c.patternCache id t)]
      unfold approve at hg
      cases hgb : getById c.inner id with
      | none => rw [hgb] at hg; exact absurd hg (by simp)
      | some p0 =>
        rw [hgb] at hg
        by_cases hv : validTransition p0.status .approved = true
        · simp only [hv, if_true, Except.ok.injEq] at hg
          subst hg
          exact getById_replaceById (approvedVersion p0 who ts) hgb (getById_mem hgb).2
        · simp [hv] at hg
  · intro x h
    unfold CachedRepo.ignore at h
    cases hg : Drift.ignore c.inner id with
    | error e => rw [hg] at h; simp [Except.map] at h
    | ok y =>
      rw [hg] at h
      injection h with h
      subst h
      rw [get_of_cacheLookup_none (cacheLookup_remove c.patternCache id t)]
      unfold ignore at hg
      cases hgb : getById c.inner id with
      | none => rw [hgb] at hg; exact absurd hg (by simp)
      | some p0 =>
        rw [hgb] at hg
        by_cases hv : validTransition p0.status .ignored = true
        · simp only [hv, if_true, Except.ok.injEq] at hg
          subst hg
          exact getById_replaceById (ignoredVersion p0) hgb (getById_mem hgb).2
        · simp [hv] at hg
  · exact get_of_cacheLookup_none rfl

/-- Witness for C5: a live cache entry is served even after the inner
repository has been emptied out-of-band. -/
theorem C5_cache_semantics_witness :
    cacheLookup [⟨"p1", mkPattern "p1" "api" .discovered (9/10), 100⟩] "p1" 0 =
      some (mkPattern "p1" "api" .discovered (9/10))
  ∧ (CachedRepo.get { inner := ([] : Repo), patternCache := [⟨"p1", mkPattern "p1" "api" .discovered (9/10), 100⟩], patternTtlMs := 100 } "p1" 0).1 =
      some (mkPattern "p1" "api" .discovered (9/10)) := by
  refine ⟨rfl, ?_⟩
  exact (C5_cache_semantics { inner := [mkPattern "p1" "api" .discovered (9/10)], patternCache := [⟨"p1", mkPattern "p1" "api" .discovered (9/10), 100⟩], patternTtlMs := 100 } "p1" (mkPattern "p1" "api" .discovered (9/10)) 0 0 0 []).1 rfl

/-! ## C3: unified backend round-trip -/

theorem mem_loadUnified_saveUnified {ps : Repo} {x : Pattern} :
    x ∈ loadUnified (saveUnified ps) ↔ x ∈ ps := by
  unfold loadUnified saveUnified
  rw [List.mem_flatMap]
  constructor
  · rintro ⟨f, hf, hx⟩
    obtain ⟨c, hc, rfl⟩ := List.mem_map.mp hf
    exact (List.mem_filter.mp hx).1
  · intro hx
    refine ⟨{ version := "2.0.0", category := x.category,
              patterns := ps.filter (fun p => p.category == x.category) }, ?_, ?_⟩
    · exact List.mem_map.mpr
        ⟨x.category, List.mem_dedup.mpr (List.mem_map_of_mem Pattern.category hx), rfl⟩
    · exact List.mem_filter.mpr ⟨hx, by simp⟩

/-- C3: `add` then `saveAll` on the unified backend, then a freshly
constructed repository over the same root, once initialized, returns from
`get` a pattern equal to the added one in every field (status and category
included). -/
theorem C3_roundtrip (r r' : Repo) (p : Pattern) (cfg : UnifiedConfig) (d0 : UnifiedDisk)
    (hids : (r.map Pattern.id).Nodup) (hadd : add r p = .ok r') :
    getById (initializeUnified cfg
      (saveAllUnified r' { unified := d0, legacy := [] })).1 p.id = some p := by
  unfold add at hadd
  cases hg : getById r p.id with
  | some x => rw [hg] at hadd; exact absurd hadd (by simp)
  | none =>
    rw [hg] at hadd
    have hr' : r' = r ++ [p] := by cases hadd; rfl
    subst hr'
    have hninr : ∀ x ∈ r, x.id ≠ p.id := (getById_eq_none_iff r p.id).mp hg
    have hids' : ((r ++ [p]).map Pattern.id).Nodup := by
      rw [List.map_append]
      refine List.Nodup.append hids (by simp) ?_
      intro a ha hb
      simp only [List.map_cons, List.map_nil, List.mem_singleton] at hb
      subst hb
      obtain ⟨x, hx, hxa⟩ := List.mem_map.mp ha
      exact hninr x hx hxa
    have hinit : (initializeUnified cfg
        (saveAllUnified (r ++ [p]) { unified := d0, legacy := [] })).1 =
        loadUnified (saveUnified (r ++ [p])) := by
      simp [initializeUnified, saveAllUnified]
    rw [hinit]
    have hpmem : p ∈ loadUnified (saveUnified (r ++ [p])) :=
      mem_loadUnified_saveUnified.mpr (List.mem_append.mpr (Or.inr (by simp)))
    apply getById_eq_some_of_mem _ _ hpmem
    intro x hx hxi
    have hxmem : x ∈ r ++ [p] := mem_loadUnified_saveUnified.mp hx
    exact List.inj_on_of_nodup_map hids' hxmem
      (List.mem_append.mpr (Or.inr (by simp))) hxi

/-- Witness for C3 at a concrete one-pattern repository. -/
theorem C3_roundtrip_witness :
    getById (initializeUnified ⟨false, false⟩ (saveAllUnified [mkPattern "p1" "api" .discovered (9/10)] { unified := [], legacy := [] })).1 "p1" =
      some (mkPattern "p1" "api" .discovered (9/10)) :=
  C3_roundtrip [] [mkPattern "p1" "api" .discovered (9/10)]
    (mkPattern "p1" "api" .discovered (9/10)) ⟨false, false⟩ [] (by simp) rfl

/-! ## C4: legacy migration and its idempotence -/

theorem upsertAll_append_of_nodup (ps : List Pattern) :
    ∀ acc : Repo, ((acc ++ ps).map Pattern.id).Nodup → upsertAll acc ps = acc ++ ps := by
  induction ps with
  | nil => intro acc _; simp [upsertAll]
  | cons p t ih =>
    intro acc h
    have hgp : getById acc p.id = none := by
      rw [getById_eq_none_iff]
      intro x hx hxe
      rw [List.map_append, List.map_cons, List.nodup_append] at h
      exact h.2.2 (List.mem_map_of_mem Pattern.id hx)
        (by rw [hxe]; exact List.mem_cons_self p.id (t.map Pattern.id))
    have hstep : upsertById acc p = acc ++ [p] := by
      unfold upsertById
      rw [hgp]
    have hrec := ih (acc ++ [p]) (by simpa [List.append_assoc] using h)
    show (p :: t).foldl upsertById acc = acc ++ p :: t
    rw [List.foldl_cons, hstep]
    unfold upsertAll at hrec
    rw [hrec]
    simp

theorem nodup_ids_loadUnified_saveUnified (ps : Repo)
    (h : (ps.map Pattern.id).Nodup) :
    ((loadUnified (saveUnified ps)).map Pattern.id).Nodup := by
  have hinj : ∀ x ∈ ps, ∀ y ∈ ps, x.id = y.id → x = y := fun x hx y hy hxy =>
    List.inj_on_of_nodup_map h hx hy hxy
  unfold loadUnified saveUnified
  rw [List.map_flatMap, List.flatMap_map]
  rw [List.nodup_flatMap]
  constructor
  · intro c _
    exact List.Nodup.sublist (List.Sublist.map Pattern.id (List.filter_sublist ps)) h
  · apply List.Pairwise.imp ?_ (List.nodup_dedup (ps.map Pattern.category))
    intro c1 c2 hne i hi1 hi2
    obtain ⟨x1, hx1, hid1⟩ := List.mem_map.mp hi1
    obtain ⟨x2, hx2, hid2⟩ := List.mem_map.mp hi2
    obtain ⟨hx1m, hc1⟩ := List.mem_filter.mp hx1
    obtain ⟨hx2m, hc2⟩ := List.mem_filter.mp hx2
    have hx12 : x1 = x2 := hinj x1 hx1m x2 hx2m (by rw [hid1, hid2])
    apply hne
    have h1 : x1.category = c1 := by simpa using hc1
    have h2 : x2.category = c2 := by simpa using hc2
    rw [← h1, ← h2, hx12]

theorem upsertAll_of_mem (base : Repo) (hbase : (base.map Pattern.id).Nodup) :
    ∀ ps : List Pattern, (∀ p ∈ ps, p ∈ base) → upsertAll base ps = base := by
  intro ps
  induction ps with
  | nil => intro _; rfl
  | cons p t ih =>
    intro hsub
    have hp : p ∈ base := hsub p (List.mem_cons_self p t)
    have hg : getById base p.id = some p :=
      getById_eq_some_of_mem base p hp
        (fun x hx hxi => List.inj_on_of_nodup_map hbase hx hp hxi)
    have hrep : replaceById base p.id p = base := by
      unfold replaceById
      have hcong : ∀ x ∈ base, (if x.id == p.id then p else x) = x := by
        intro x hx
        by_cases hxi : x.id = p.id
        · have hxp : x = p := List.inj_on_of_nodup_map hbase hx hp hxi
          simp [hxi, hxp]
        · simp [hxi]
      rw [List.map_congr_left hcong]
      simp
    have hstep : upsertById base p = base := by
      unfold upsertById
      rw [hg, hrep]
    show (p :: t).foldl upsertById base = base
    rw [List.foldl_cons, hstep]
    exact ih (fun q hq => hsub q (List.mem_cons_of_mem p hq))

/-- C4: initializing the unified backend with `autoMigrate` over a legacy
status-keyed tree imports every legacy pattern with category re-attached
from the filename, status re-attached from the directory and all other
fields preserved; and re-running the migrating initialization yields
exactly the same pattern set — no duplicates, no lost status. -/
theorem C4_migration_idempotent (cfg : UnifiedConfig) (legacy : LegacyDisk)
    (hauto : cfg.autoMigrate = true)
    (hids : ((loadLegacy legacy).map Pattern.id).Nodup) :
    (initializeUnified cfg { unified := [], legacy := legacy }).1 = loadLegacy legacy
  ∧ (∀ x, x ∈ (initializeUnified cfg
        (initializeUnified cfg { unified := [], legacy := legacy }).2).1 ↔
      x ∈ (initializeUnified cfg { unified := [], legacy := legacy }).1)
  ∧ (((initializeUnified cfg
        (initializeUnified cfg { unified := [], legacy := legacy }).2).1).map
          Pattern.id).Nodup := by
  by_cases hleg : legacy.isEmpty
  · have hl : legacy = [] := List.isEmpty_iff.mp hleg
    subst hl
    refine ⟨by simp [initializeUnified, loadUnified, loadLegacy],
      fun x => by simp [initializeUnified, loadUnified],
      by simp [initializeUnified, loadUnified]⟩
  · have hcond : (cfg.autoMigrate && !legacy.isEmpty) = true := by
      rw [hauto, Bool.true_and, Bool.not_eq_true']
      exact Bool.not_eq_true _ ▸ (by simpa using hleg)
    have hmerged : upsertAll (loadUnified []) (loadLegacy legacy) = loadLegacy legacy := by
      have h := upsertAll_append_of_nodup (loadLegacy legacy) [] (by simpa using hids)
      simpa [loadUnified] using h
    have h1 : initializeUnified cfg { unified := [], legacy := legacy } =
        (loadLegacy legacy,
         { unified := saveUnified (loadLegacy legacy),
           legacy := if cfg.keepLegacyFiles then legacy else [] }) := by
      unfold initializeUnified
      simp only [hcond, if_true, hmerged]
    have h1fst : (initializeUnified cfg { unified := [], legacy := legacy }).1 =
        loadLegacy legacy := by rw [h1]
    have h1snd : (initializeUnified cfg { unified := [], legacy := legacy }).2 =
        ({ unified := saveUnified (loadLegacy legacy),
           legacy := if cfg.keepLegacyFiles then legacy else [] } : UnifiedFS) := by rw [h1]
    have h2keep : (initializeUnified cfg
        { unified := saveUnified (loadLegacy legacy), legacy := legacy }).1 =
        loadUnified (saveUnified (loadLegacy legacy)) := by
      unfold initializeUnified
      simp only [hcond, if_true]
      exact upsertAll_of_mem _ (nodup_ids_loadUnified_saveUnified _ hids) _
        (fun q hq => mem_loadUnified_saveUnified.mpr hq)
    have h2none : (initializeUnified cfg
        { unified := saveUnified (loadLegacy legacy), legacy := [] }).1 =
        loadUnified (saveUnified (loadLegacy legacy)) := by
      simp [initializeUnified, hauto]
    refine ⟨h1fst, ?_, ?_⟩
    · intro x
      rw [h1fst, h1snd]
      by_cases hkeep : cfg.keepLegacyFiles
      · rw [if_pos hkeep, h2keep]
        exact mem_loadUnified_saveUnified
      · rw [if_neg hkeep, h2none]
        exact mem_loadUnified_saveUnified
    · rw [h1snd]
      by_cases hkeep : cfg.keepLegacyFiles
      · rw [if_pos hkeep, h2keep]
        exact nodup_ids_loadUnified_saveUnified _ hids
      · rw [if_neg hkeep, h2none]
        exact nodup_ids_loadUnified_saveUnified _ hids

/-- Witness for C4: a one-file legacy tree (approved/api) migrates with
status and category re-attached, and a second migrating initialization
leaves the pattern set unchanged. -/
theorem C4_migration_idempotent_witness :
    (initializeUnified ⟨true, true⟩ { unified := [], legacy := [⟨.approved, "api", [mkPattern "l1" "x" .discovered (1/2)]⟩] }).1 =
      loadLegacy [⟨.approved, "api", [mkPattern "l1" "x" .discovered (1/2)]⟩]
  ∧ (∀ x, x ∈ (initializeUnified ⟨true, true⟩
        (initializeUnified ⟨true, true⟩ { unified := [], legacy := [⟨.approved, "api", [mkPattern "l1" "x" .discovered (1/2)]⟩] }).2).1 ↔
      x ∈ (initializeUnified ⟨true, true⟩ { unified := [], legacy := [⟨.approved, "api", [mkPattern "l1" "x" .discovered (1/2)]⟩] }).1)
  ∧ (((initializeUnified ⟨true, true⟩
        (initializeUnified ⟨true, true⟩ { unified := [], legacy := [⟨.approved, "api", [mkPattern "l1" "x" .discovered (1/2)]⟩] }).2).1).map
          Pattern.id).Nodup :=
  C4_migration_idempotent ⟨true, true⟩ [⟨.approved, "api", [mkPattern "l1" "x" .discovered (1/2)]⟩]
    rfl (by simp [loadLegacy])

end Drift
